import Mathlib

attribute [local semireducible] Rat.mul Rat.inv Rat.add Rat.sub

set_option maxRecDepth 4000

/-!
Verification of the BitMart CTA strategy repository
(`cta_strategy/ma_bias_reversion/strategy.py`, `config.py`, `main.py`).

The engine's numeric code runs on Python `decimal.Decimal` under
`getcontext().prec = 10`: every arithmetic operation is correctly rounded
to 10 significant decimal digits with half-even tie-breaking.  We embed
decimal values as rationals and model each context operation as the exact
rational operation followed by rounding to 10 significant digits.
-/

/-- Fuel-driven base-10 logarithm on naturals: `nlog10Aux f n` is
`⌊log10 n⌋` whenever `n ≤ f` and `1 ≤ n`. -/
def nlog10Aux : Nat → Nat → Nat
  | 0, _ => 0
  | f + 1, n => if n < 10 then 0 else nlog10Aux f (n / 10) + 1

/-- Computes `⌊log10 n⌋` for `n ≥ 1` (junk value 0 at 0). -/
def nlog10 (n : Nat) : Nat := nlog10Aux n n

/-- Computes `⌊log10 |x|⌋` for a nonzero rational (junk value 0 at 0), computed from
the digit counts of numerator and denominator with a one-step correction. -/
def floorLog10 (x : ℚ) : ℤ :=
  if x = 0 then 0
  else
    let a := x.num.natAbs
    let b := x.den
    let e0 : ℤ := (nlog10 a : ℤ) - (nlog10 b : ℤ)
    if (10 : ℚ) ^ e0 ≤ |x| then e0 else e0 - 1

/-- Round a rational to the nearest integer, ties to even
(the `decimal` module's default `ROUND_HALF_EVEN`). -/
def roundHalfEven (y : ℚ) : ℤ :=
  let f := ⌊y⌋
  let r := y - f
  if r < 1 / 2 then f
  else if 1 / 2 < r then f + 1
  else if f % 2 = 0 then f else f + 1

/-- Correctly round a rational to `p` significant decimal digits,
half-even: the result of every `decimal` context operation at
precision `p`. -/
def roundPrec (p : Nat) (x : ℚ) : ℚ :=
  if x = 0 then 0
  else ((roundHalfEven (x * 10 ^ ((p : ℤ) - 1 - floorLog10 x)) : ℤ) : ℚ) *
    10 ^ (-((p : ℤ) - 1 - floorLog10 x))

/-- Context addition at `prec = 10` (`a + b` on `Decimal`). -/
def decAdd (a b : ℚ) : ℚ := roundPrec 10 (a + b)

/-- Context subtraction at `prec = 10` (`a - b` on `Decimal`). -/
def decSub (a b : ℚ) : ℚ := roundPrec 10 (a - b)

/-- Context multiplication at `prec = 10` (`a * b` on `Decimal`). -/
def decMul (a b : ℚ) : ℚ := roundPrec 10 (a * b)

/-- Context division at `prec = 10` (`a / b` on `Decimal`). -/
def decDiv (a b : ℚ) : ℚ := roundPrec 10 (a / b)

/-- Python `sum` over a list of `Decimal`s: left fold of context
addition starting from 0. -/
def decSum (l : List ℚ) : ℚ := l.foldl decAdd 0

/-- The value denoted by the 4-decimal-place string `f"{x:.4f}"` that the
engine submits as a plan-order trigger price. -/
def q4 (x : ℚ) : ℚ := ((roundHalfEven (x * 10000) : ℤ) : ℚ) / 10000

/-- Holds when `x` is exactly representable with at most `p` significant decimal
digits: `x = m * 10^e` with `|m| < 10^p`. -/
def repPrec (p : Nat) (x : ℚ) : Prop :=
  ∃ m : ℤ, ∃ e : ℤ, x = (m : ℚ) * 10 ^ e ∧ m.natAbs < 10 ^ p

/-! ### Data model of the trading engine (`strategy.py`) -/

/-- Static configuration (`config.py` together with the fields the engine
reads from it).  `stopLossPct` is the exact rational value of
`Decimal(config.STOP_LOSS_PERCENT)`; `biasEntryLong` / `biasEntryShort`
are the exact rational values of the float thresholds. -/
structure Config where
  apiKey : String
  symbol : String
  klineStep : Nat
  maPeriod : Nat
  orderSize : Nat
  leverage : String
  stopLossPct : ℚ
  biasEntryLong : ℚ
  biasEntryShort : ℚ
  deriving Repr, DecidableEq

/-- A position snapshot as returned by the venue
(`get_current_position` response row; only the fields the engine reads). -/
structure Position where
  side : String
  position_size : String
  open_avg_price : ℚ
  deriving Repr, DecidableEq

/-- One realized-PnL history row (`get_transaction_history` response row);
dictionary lookups with `.get` are modelled as `Option`. -/
structure PnlRow where
  realised_pnl : Option String
  fee : Option String
  close_avg_price : Option String
  deriving Repr, DecidableEq

/-- One row of the trade ledger `trades.csv` as written by `log_trade`;
a field absent from the Python dict (`dict.get` returning `None`) is
`none`. -/
structure TradeRecord where
  symbol : Option String
  side : Option String
  amount : Option String
  pnl : Option String
  fee : Option String
  notes : Option String
  deriving Repr, DecidableEq

/-- A candle as consumed by the run loop (timestamp plus close price). -/
structure Kline where
  timestamp : ℤ
  close_price : ℚ
  deriving Repr, DecidableEq

/-- The indicator bundle returned by `calculate_indicators`. -/
structure Indicators where
  current_price : ℚ
  ma : ℚ
  bias : ℚ
  deriving Repr, DecidableEq

/-- The mutable state of a `TradingStrategy` instance, restricted to what
the verified operations read and write.  `ledger` is the list of rows
appended to `trades.csv` so far. -/
structure EngineState where
  tradeEnabled : Bool
  activePosition : Option Position
  last_kline_open_time : ℤ
  ledger : List TradeRecord
  deriving Repr, DecidableEq

/-- A mutating call issued to the exchange collaborator (query calls are
modelled by injecting their responses, not by trace events). -/
inductive ExchangeCall where
  | submitLeverage (symbol : String) (leverage : String)
  | cancelPlanOrders (symbol : String)
  | newOrder (symbol : String) (side : Nat) (orderType : String) (size : Nat)
  | submitTpSl (symbol : String) (orderType : String) (price : ℚ)
  deriving Repr, DecidableEq

/-- A response from the venue: either an `APIException` (`Except.error`)
or a payload with its embedded status code. -/
abbrev VenueResp (α : Type) := Except Unit (Int × α)

/-! ### Operations of `TradingStrategy` -/

/-- Models `TradingStrategy.get_position` (strategy.py lines 139-147): returns
`None` when trading is disabled, on an `APIException`, on a non-1000
status code, or on empty data; otherwise the first data row. -/
def get_position (tradeEnabled : Bool) (resp : VenueResp (List Position)) :
    Option Position :=
  if tradeEnabled = false then none
  else
    match resp with
    | Except.error _ => none
    | Except.ok (code, data) => if code ≠ 1000 then none else data.head?

/-- Models `cancel_all_plan_orders` (strategy.py lines 149-155): a no-op when
trading is disabled, otherwise one cancel-all call (its own
`APIException` is swallowed). -/
def cancel_all_plan_orders (cfg : Config) (tradeEnabled : Bool) : List ExchangeCall :=
  if tradeEnabled = false then [] else [ExchangeCall.cancelPlanOrders cfg.symbol]

/-- Models `_prepare_trading_environment` (strategy.py lines 75-83): a no-op when
trading is disabled, otherwise a leverage call followed by a cancel-all. -/
def prepare_trading_environment (cfg : Config) (tradeEnabled : Bool) : List ExchangeCall :=
  if tradeEnabled = false then []
  else ExchangeCall.submitLeverage cfg.symbol cfg.leverage :: cancel_all_plan_orders cfg tradeEnabled

/-- Models `TradingStrategy.__init__` (strategy.py lines 57-73): the default
placeholder API key selects read-only mode (`trade_enabled = False`);
otherwise trading is enabled and the environment is prepared. -/
def init_strategy (cfg : Config) : EngineState × List ExchangeCall :=
  if cfg.apiKey = "YOUR_API_KEY" then
    ({ tradeEnabled := false, activePosition := none,
       last_kline_open_time := 0, ledger := [] }, [])
  else
    ({ tradeEnabled := true, activePosition := none,
       last_kline_open_time := 0, ledger := [] },
     prepare_trading_environment cfg true)

/-- Rendering of `last_trade.get('close_avg_price')` inside the f-string
note (`None` prints as the string `None`). -/
def optStr : Option String → String
  | none => "None"
  | some s => s

/-- The row written by `log_trade` on the happy path of
`check_trade_closure` (strategy.py lines 99-106). -/
def fullRecord (symbol : String) (ap : Position) (row : PnlRow) : TradeRecord :=
  { symbol := some symbol, side := some ap.side, amount := some ap.position_size,
    pnl := row.realised_pnl, fee := row.fee,
    notes := some ("TP/SL triggered. Closed at " ++ optStr row.close_avg_price) }

/-- The degraded row written when the history response carries a non-1000
code or no rows (strategy.py line 109). -/
def degradedRecord : TradeRecord :=
  { symbol := none, side := none, amount := none, pnl := none, fee := none,
    notes := some "Position closed, but failed to fetch PNL history." }

/-- The rows appended by the `try/except` body of `check_trade_closure`
(strategy.py lines 94-111): one full row on success, one degraded row on a
bad code or empty data, and none at all when the history call raises. -/
def closureRecords (symbol : String) (ap : Position)
    (histResp : VenueResp (List PnlRow)) : List TradeRecord :=
  match histResp with
  | Except.error _ => []
  | Except.ok (code, data) =>
    match data with
    | row :: _ => if code = 1000 then [fullRecord symbol ap row] else [degradedRecord]
    | [] => [degradedRecord]

/-- Models `check_trade_closure` (strategy.py lines 85-114).  Returns early when
trading is disabled or no position is cached; otherwise, when the venue
reports no position, appends the closure rows to the ledger and — in the
`finally` block — clears `active_position` and cancels all plan orders. -/
def check_trade_closure (cfg : Config) (st : EngineState)
    (posResp : VenueResp (List Position)) (histResp : VenueResp (List PnlRow)) :
    EngineState × List ExchangeCall :=
  match st.tradeEnabled, st.activePosition with
  | false, _ => (st, [])
  | true, none => (st, [])
  | true, some ap =>
    match get_position st.tradeEnabled posResp with
    | some _ => (st, [])
    | none =>
      ({ st with activePosition := none,
                 ledger := st.ledger ++ closureRecords cfg.symbol ap histResp },
       cancel_all_plan_orders cfg st.tradeEnabled)

/-- The slice `close_prices[-ma_period:]` (Python semantics: `[-0:]` is the
whole list). -/
def lastSlice (k : Nat) (l : List ℚ) : List ℚ :=
  if k = 0 then l else l.drop (l.length - k)

/-- The context-arithmetic moving average
`sum(close_prices[-ma_period:]) / ma_period` (strategy.py line 134). -/
def movingAvg (maPeriod : Nat) (closes : List ℚ) : ℚ :=
  decDiv (decSum (lastSlice maPeriod closes)) (maPeriod : ℚ)

/-- Models `calculate_indicators` (strategy.py lines 132-137), in context decimal
arithmetic: `ma = sum(close_prices[-ma_period:]) / ma_period`,
`bias = (current_price - ma) / ma` guarded to 0 when `ma = 0`.
An empty kline list is an `IndexError` in Python, modelled as `none`. -/
def calculate_indicators (maPeriod : Nat) (closes : List ℚ) : Option Indicators :=
  match closes.getLast? with
  | none => none
  | some current_price =>
    some { current_price := current_price,
           ma := movingAvg maPeriod closes,
           bias := if movingAvg maPeriod closes = 0 then (0 : ℚ)
                   else decDiv (decSub current_price (movingAvg maPeriod closes))
                          (movingAvg maPeriod closes) }

/-- Models `execute_trade_entry` (strategy.py lines 157-189).  Injected
environment: the market-order response, the position query response after
the 3-second wait, and whether each of the two TP/SL submissions raises.
Returns the new state and the trace of mutating exchange calls. -/
def execute_trade_entry (cfg : Config) (st : EngineState) (side : Nat)
    (ind : Indicators) (orderResp : VenueResp String)
    (posResp : VenueResp (List Position)) (tpFails slFails : Bool) :
    EngineState × List ExchangeCall :=
  if st.tradeEnabled = false then (st, [])
  else
    let openAct := ExchangeCall.newOrder cfg.symbol side "market" cfg.orderSize
    match orderResp with
    | Except.error _ => (st, [openAct])
    | Except.ok (code, _) =>
      if code ≠ 1000 then (st, [openAct])
      else
        match get_position st.tradeEnabled posResp with
        | none => (st, [openAct])
        | some pos =>
          let st1 := { st with activePosition := some pos }
          let tp_price := ind.ma
          let sl_price :=
            if pos.side = "long" then
              decMul pos.open_avg_price (decSub 1 cfg.stopLossPct)
            else
              decMul pos.open_avg_price (decAdd 1 cfg.stopLossPct)
          let tpAct := ExchangeCall.submitTpSl cfg.symbol "tp" (q4 tp_price)
          let slAct := ExchangeCall.submitTpSl cfg.symbol "sl" (q4 sl_price)
          let closeSide : Nat := if pos.side = "long" then 2 else 3
          let flatAct := ExchangeCall.newOrder cfg.symbol closeSide "market" cfg.orderSize
          if tpFails then (st1, [openAct, tpAct, flatAct])
          else if slFails then (st1, [openAct, tpAct, slAct, flatAct])
          else (st1, [openAct, tpAct, slAct])

/-- The entry rule of the run loop (strategy.py lines 217-223): long
(side 4) when `bias <= BIAS_ENTRY_LONG`, otherwise short (side 1) when
`bias >= BIAS_ENTRY_SHORT`, otherwise no entry. -/
def entry_signal (biasEntryLong biasEntryShort bias : ℚ) : Option Nat :=
  if bias ≤ biasEntryLong then some 4
  else if biasEntryShort ≤ bias then some 1
  else none

/-- Models `next_run_time` (strategy.py line 196): the next candle boundary
strictly after `current_time`. -/
def next_run_time (currentTime : ℚ) (klineStep : Nat) : ℚ :=
  ((⌊currentTime / ((klineStep : ℚ) * 60)⌋ : ℤ) + 1) * ((klineStep : ℚ) * 60)

/-- What one pass of the `run` loop did. -/
structure PassOutcome where
  checkedClosure : Bool
  entrySide : Option Nat
  deriving Repr, DecidableEq

/-- The part of a loop pass after the closure check (strategy.py lines
203-226), applied to the post-closure-check state `st1`: with a still
active position only a long sleep happens; otherwise klines are fetched,
the last open time recorded, indicators computed and the entry rule
evaluated (`if not klines: continue` treats both `None` and `[]` as
falsy). -/
def run_pass_body (cfg : Config) (st1 : EngineState)
    (klinesResp : Option (List Kline)) : EngineState × PassOutcome :=
  match st1.activePosition with
  | some _ => (st1, { checkedClosure := true, entrySide := none })
  | none =>
    match klinesResp with
    | none => (st1, { checkedClosure := true, entrySide := none })
    | some [] => (st1, { checkedClosure := true, entrySide := none })
    | some (k :: ks) =>
      let st2 := { st1 with
        last_kline_open_time := ((k :: ks).getLast (List.cons_ne_nil k ks)).timestamp }
      match calculate_indicators cfg.maPeriod ((k :: ks).map Kline.close_price) with
      | none => (st2, { checkedClosure := true, entrySide := none })
      | some ind =>
        (st2, { checkedClosure := true,
                entrySide := entry_signal cfg.biasEntryLong cfg.biasEntryShort ind.bias })

/-- One pass of the `while True` scheduling loop (strategy.py lines
195-226), stopping at the entry decision (the actual
`execute_trade_entry` call takes its own injected environment and is
modelled separately).  The same-candle guard on line 198 `continue`s
before anything else; only afterwards is `check_trade_closure` run. -/
def run_pass (cfg : Config) (st : EngineState) (currentTime : ℚ)
    (posResp : VenueResp (List Position)) (histResp : VenueResp (List PnlRow))
    (klinesResp : Option (List Kline)) : EngineState × PassOutcome :=
  if (st.last_kline_open_time : ℚ) ≥
      next_run_time currentTime cfg.klineStep - (cfg.klineStep : ℚ) * 60 then
    (st, { checkedClosure := false, entrySide := none })
  else
    run_pass_body cfg (check_trade_closure cfg st posResp histResp).1 klinesResp

/-! ### Process orchestrator (`main.py`) -/

/-- A registry entry of `.running_strategies.json`
(created by `start_strategy`). -/
structure ProcInfo where
  pid : Nat
  start_time : Nat
  deriving Repr, DecidableEq

/-- The user-visible outcome of one `stop` command. -/
inductive StopResult where
  | noRunning
  | invalidChoice
  | killFailed (name : String) (pid : Nat)
  | stopped (name : String)
  deriving Repr, DecidableEq

/-- Python list indexing `l[i]` with negative indices counting from the
end; out of range is an `IndexError`, modelled as `none`. -/
def pyGet {α : Type} (l : List α) (i : ℤ) : Option α :=
  if 0 ≤ i then l.get? i.toNat
  else if (-i).toNat ≤ l.length then l.get? (l.length - (-i).toNat)
  else none

/-- Models `stop_strategy` (main.py lines 92-122).  The registry is the ordered
association list read from the registry file; `userChoice` is the number
typed by the user; `killOk` tells whether the forced `taskkill` succeeded
(`False` = `subprocess.CalledProcessError`).  Returns the resulting
registry (persisted only when it changed) and the printed outcome. -/
def stop_strategy (procs : List (String × ProcInfo)) (userChoice : ℤ)
    (killOk : Bool) : List (String × ProcInfo) × StopResult :=
  if procs.isEmpty then (procs, StopResult.noRunning)
  else
    match pyGet (procs.map Prod.fst) (userChoice - 1) with
    | none => (procs, StopResult.invalidChoice)
    | some name =>
      match procs.lookup name with
      | none => (procs, StopResult.invalidChoice)
      | some info =>
        if killOk then
          (procs.filter (fun p => p.1 ≠ name), StopResult.stopped name)
        else (procs, StopResult.killFailed name info.pid)

/-! ### Concrete fixtures shared by witnesses and counterexamples -/

/-- A live configuration (the values of `config.py`, with a non-default
key so trading is enabled). -/
def cfgLive : Config :=
  { apiKey := "k", symbol := "BTCUSDT", klineStep := 1, maPeriod := 20,
    orderSize := 1, leverage := "10", stopLossPct := 1/50,
    biasEntryLong := -(1/1000), biasEntryShort := 1/1000 }

/-- Models `config.py` exactly as shipped: the placeholder API key. -/
def cfgReadOnly : Config := { cfgLive with apiKey := "YOUR_API_KEY" }

def posLong : Position :=
  { side := "long", position_size := "1", open_avg_price := 100 }

def stOpen : EngineState :=
  { tradeEnabled := true, activePosition := some posLong,
    last_kline_open_time := 0, ledger := [] }

def stFlat : EngineState :=
  { tradeEnabled := true, activePosition := none,
    last_kline_open_time := 0, ledger := [] }

def stDisabled : EngineState :=
  { tradeEnabled := false, activePosition := none,
    last_kline_open_time := 0, ledger := [] }

/-- A one-entry registry for the orchestrator claims. -/
def procAlpha : ProcInfo := { pid := 1234, start_time := 0 }

/-- Twenty closes whose running decimal sum overflows 10 significant
digits at the second addition: `9999999.999 + 9999999.999` rounds to
`20000000`, so the decimal mean is `1000000` while the exact mean is
`999999.9999`. -/
def cexCloses : List ℚ :=
  [9999999999/1000, 9999999999/1000, 0, 0, 0, 0, 0, 0, 0, 0,
   0, 0, 0, 0, 0, 0, 0, 0, 0, 0]

/-- An entry-time indicator bundle whose moving average `0.12346` needs
five decimal places. -/
def indCex : Indicators :=
  { current_price := 100, ma := 12346/100000, bias := 0 }

/-! ### Correctness of the rounding model -/

theorem nlog10Aux_spec : ∀ (f n : Nat), 1 ≤ n → n ≤ f →
    10 ^ nlog10Aux f n ≤ n ∧ n < 10 ^ (nlog10Aux f n + 1) := by
  intro f
  induction f with
  | zero => intro n h1 h2; omega
  | succ f ih =>
    intro n h1 h2
    rw [nlog10Aux]
    by_cases h10 : n < 10
    · simp only [if_pos h10]
      constructor
      · simpa using h1
      · simpa using h10
    · simp only [if_neg h10]
      push_neg at h10
      have hd1 : 1 ≤ n / 10 := (Nat.one_le_div_iff (by norm_num)).2 h10
      have hdf : n / 10 ≤ f := by
        have := Nat.div_lt_self (by omega : 0 < n) (by norm_num : 1 < 10)
        omega
      obtain ⟨hlo, hhi⟩ := ih (n / 10) hd1 hdf
      constructor
      · calc 10 ^ (nlog10Aux f (n / 10) + 1)
            = 10 ^ nlog10Aux f (n / 10) * 10 := by ring
          _ ≤ n / 10 * 10 := Nat.mul_le_mul_right 10 hlo
          _ ≤ n := Nat.div_mul_le_self n 10
      · have : n < 10 ^ (nlog10Aux f (n / 10) + 1) * 10 :=
          (Nat.div_lt_iff_lt_mul (by norm_num)).1 hhi
        calc n < 10 ^ (nlog10Aux f (n / 10) + 1) * 10 := this
          _ = 10 ^ (nlog10Aux f (n / 10) + 1 + 1) := by ring

theorem nlog10_spec (n : Nat) (h1 : 1 ≤ n) :
    10 ^ nlog10 n ≤ n ∧ n < 10 ^ (nlog10 n + 1) :=
  nlog10Aux_spec n n h1 le_rfl

theorem rat_abs_eq_div (x : ℚ) : |x| = (x.num.natAbs : ℚ) / (x.den : ℚ) := by
  have hd : (0 : ℚ) < (x.den : ℚ) := by exact_mod_cast x.den_pos
  have h1 : |x| = |(x.num : ℚ)| / (x.den : ℚ) := by
    rw [← abs_of_pos hd, ← abs_div, Rat.num_div_den x]
  rw [h1]
  congr 1
  rw [← Int.cast_abs, ← Int.natCast_natAbs]
  exact Int.cast_natCast _

theorem floorLog10_spec (x : ℚ) (hx : x ≠ 0) :
    (10 : ℚ) ^ floorLog10 x ≤ |x| ∧ |x| < (10 : ℚ) ^ (floorLog10 x + 1) := by
  have hnum : x.num ≠ 0 := Rat.num_ne_zero.2 hx
  have ha1 : 1 ≤ x.num.natAbs := by
    have := Int.natAbs_pos.2 hnum; omega
  have hb1 : 1 ≤ x.den := x.den_pos
  obtain ⟨haLo, haHi⟩ := nlog10_spec x.num.natAbs ha1
  obtain ⟨hbLo, hbHi⟩ := nlog10_spec x.den hb1
  set a := x.num.natAbs with hadef
  set b := x.den with hbdef
  set la := nlog10 a with hladef
  set lb := nlog10 b with hlbdef
  have habs : |x| = (a : ℚ) / (b : ℚ) := rat_abs_eq_div x
  have hbpos : (0 : ℚ) < (b : ℚ) := by exact_mod_cast x.den_pos
  have hapos : (0 : ℚ) < (a : ℚ) := by exact_mod_cast ha1
  -- the uncorrected estimate is an upper bound within one step
  have key_lo : (10 : ℚ) ^ ((la : ℤ) - (lb : ℤ) - 1) ≤ |x| := by
    rw [habs]
    have h1 : (10 : ℚ) ^ ((la : ℤ) - (lb : ℤ) - 1)
        = (10 : ℚ) ^ (la : ℕ) / (10 : ℚ) ^ (lb + 1 : ℕ) := by
      rw [div_eq_mul_inv, ← zpow_natCast (10 : ℚ) la, ← zpow_natCast (10 : ℚ) (lb + 1),
        ← zpow_neg, ← zpow_add₀ (by norm_num : (10 : ℚ) ≠ 0)]
      congr 1
      push_cast
      ring
    rw [h1, div_le_div_iff₀ (by positivity) hbpos]
    have hA : (10 : ℚ) ^ (la : ℕ) ≤ (a : ℚ) := by exact_mod_cast haLo
    have hB : (b : ℚ) ≤ (10 : ℚ) ^ (lb + 1 : ℕ) := by
      exact_mod_cast Nat.le_of_lt hbHi
    calc (10 : ℚ) ^ (la : ℕ) * (b : ℚ) ≤ (a : ℚ) * (10 : ℚ) ^ (lb + 1 : ℕ) :=
          mul_le_mul hA hB (le_of_lt hbpos) (by positivity)
      _ = (a : ℚ) * (10 : ℚ) ^ (lb + 1 : ℕ) := rfl
  have key_hi : |x| < (10 : ℚ) ^ ((la : ℤ) - (lb : ℤ) + 1) := by
    rw [habs]
    have h1 : (10 : ℚ) ^ ((la : ℤ) - (lb : ℤ) + 1)
        = (10 : ℚ) ^ (la + 1 : ℕ) / (10 : ℚ) ^ (lb : ℕ) := by
      rw [div_eq_mul_inv, ← zpow_natCast (10 : ℚ) (la + 1), ← zpow_natCast (10 : ℚ) lb,
        ← zpow_neg, ← zpow_add₀ (by norm_num : (10 : ℚ) ≠ 0)]
      congr 1
      push_cast
      ring
    rw [h1, div_lt_div_iff₀ hbpos (by positivity)]
    have hA : (a : ℚ) < (10 : ℚ) ^ (la + 1 : ℕ) := by exact_mod_cast haHi
    have hB : (10 : ℚ) ^ (lb : ℕ) ≤ (b : ℚ) := by exact_mod_cast hbLo
    calc (a : ℚ) * (10 : ℚ) ^ (lb : ℕ) ≤ (a : ℚ) * (b : ℚ) := by
          exact mul_le_mul_of_nonneg_left hB (le_of_lt hapos)
      _ < (10 : ℚ) ^ (la + 1 : ℕ) * (b : ℚ) := by
          exact mul_lt_mul_of_pos_right hA hbpos
  rw [floorLog10, if_neg hx]
  by_cases hcase : (10 : ℚ) ^ ((nlog10 x.num.natAbs : ℤ) - (nlog10 x.den : ℤ)) ≤ |x|
  · simp only [if_pos hcase]
    exact ⟨hcase, by simpa using key_hi⟩
  · simp only [if_neg hcase]
    push_neg at hcase
    constructor
    · simpa using key_lo
    · have : (nlog10 a : ℤ) - (nlog10 b : ℤ) - 1 + 1 = (nlog10 a : ℤ) - (nlog10 b : ℤ) := by ring
      rw [this]
      simpa using hcase

theorem roundHalfEven_intCast (n : ℤ) : roundHalfEven ((n : ℤ) : ℚ) = n := by
  rw [roundHalfEven]
  simp only [Int.floor_intCast]
  rw [if_pos]
  · norm_num

theorem roundHalfEven_eq_of_lt (y : ℚ) (f : ℤ) (h1 : (f : ℚ) ≤ y)
    (h2 : y - (f : ℚ) < 1 / 2) : roundHalfEven y = f := by
  have hf : ⌊y⌋ = f := by
    rw [Int.floor_eq_iff]
    constructor
    · exact h1
    · linarith
  rw [roundHalfEven]
  simp only [hf]
  rw [if_pos h2]

theorem roundHalfEven_eq_of_gt (y : ℚ) (f : ℤ) (h1 : (f : ℚ) ≤ y)
    (h2 : y < (f : ℚ) + 1) (h3 : 1 / 2 < y - (f : ℚ)) : roundHalfEven y = f + 1 := by
  have hf : ⌊y⌋ = f := by
    rw [Int.floor_eq_iff]
    constructor
    · exact h1
    · linarith
  rw [roundHalfEven]
  simp only [hf]
  rw [if_neg (by linarith), if_pos h3]

theorem floorLog10_eq_of (x : ℚ) (e : ℤ) (hx : x ≠ 0)
    (h1 : (10 : ℚ) ^ e ≤ |x|) (h2 : |x| < (10 : ℚ) ^ (e + 1)) : floorLog10 x = e := by
  obtain ⟨s1, s2⟩ := floorLog10_spec x hx
  have h10 : (1 : ℚ) < 10 := by norm_num
  have hA : floorLog10 x < e + 1 := by
    have := lt_of_le_of_lt s1 h2
    exact (zpow_lt_zpow_iff_right₀ h10).1 this
  have hB : e < floorLog10 x + 1 := by
    have := lt_of_le_of_lt h1 s2
    exact (zpow_lt_zpow_iff_right₀ h10).1 this
  omega

theorem int_cast_abs_natAbs (m : ℤ) : |(m : ℚ)| = (m.natAbs : ℚ) := by
  rw [← Int.cast_abs, ← Int.natCast_natAbs]
  exact Int.cast_natCast _

theorem roundPrec_eq_of (p : Nat) (x : ℚ) (e : ℤ) (hx : x ≠ 0)
    (h1 : (10 : ℚ) ^ e ≤ |x|) (h2 : |x| < (10 : ℚ) ^ (e + 1)) :
    roundPrec p x =
      ((roundHalfEven (x * 10 ^ ((p : ℤ) - 1 - e)) : ℤ) : ℚ) *
        10 ^ (-((p : ℤ) - 1 - e)) := by
  rw [roundPrec, if_neg hx, floorLog10_eq_of x e hx h1 h2]

theorem roundPrec_eq_self (p : Nat) (_hp : 0 < p) (x : ℚ) (h : repPrec p x) :
    roundPrec p x = x := by
  obtain ⟨m, e, hxme, hm⟩ := h
  by_cases hx0 : x = 0
  · rw [hx0]; simp [roundPrec]
  · have hten : (10 : ℚ) ≠ 0 := by norm_num
    have hm0 : m ≠ 0 := by
      rintro rfl
      apply hx0
      rw [hxme]
      simp
    obtain ⟨hs1, _⟩ := floorLog10_spec x hx0
    have habs : |x| = (m.natAbs : ℚ) * (10 : ℚ) ^ e := by
      rw [hxme, abs_mul, int_cast_abs_natAbs, abs_of_pos (zpow_pos (by norm_num) e)]
    have hub : |x| < (10 : ℚ) ^ ((p : ℤ) + e) := by
      rw [habs, zpow_add₀ hten]
      have hmq : (m.natAbs : ℚ) < (10 : ℚ) ^ (p : ℤ) := by
        rw [zpow_natCast]
        exact_mod_cast hm
      exact mul_lt_mul_of_pos_right hmq (zpow_pos (by norm_num) e)
    have he0lt : floorLog10 x < (p : ℤ) + e := by
      have := lt_of_le_of_lt hs1 hub
      exact (zpow_lt_zpow_iff_right₀ (by norm_num : (1 : ℚ) < 10)).1 this
    have hse : 0 ≤ e + ((p : ℤ) - 1 - floorLog10 x) := by omega
    have hy : x * (10 : ℚ) ^ ((p : ℤ) - 1 - floorLog10 x)
        = ((m * 10 ^ (e + ((p : ℤ) - 1 - floorLog10 x)).toNat : ℤ) : ℚ) := by
      push_cast
      rw [← zpow_natCast (10 : ℚ) (e + ((p : ℤ) - 1 - floorLog10 x)).toNat,
        Int.toNat_of_nonneg hse, hxme, mul_assoc, ← zpow_add₀ hten]
    rw [roundPrec, if_neg hx0, hy, roundHalfEven_intCast]
    push_cast
    rw [← zpow_natCast (10 : ℚ) (e + ((p : ℤ) - 1 - floorLog10 x)).toNat,
      Int.toNat_of_nonneg hse, hxme, mul_assoc, ← zpow_add₀ hten]
    congr 1
    congr 1
    ring

theorem decAdd_exact (a b : ℚ) (h : repPrec 10 (a + b)) : decAdd a b = a + b :=
  roundPrec_eq_self 10 (by norm_num) _ h

theorem decSub_exact (a b : ℚ) (h : repPrec 10 (a - b)) : decSub a b = a - b :=
  roundPrec_eq_self 10 (by norm_num) _ h

theorem decMul_exact (a b : ℚ) (h : repPrec 10 (a * b)) : decMul a b = a * b :=
  roundPrec_eq_self 10 (by norm_num) _ h

theorem decDiv_exact (a b : ℚ) (h : repPrec 10 (a / b)) : decDiv a b = a / b :=
  roundPrec_eq_self 10 (by norm_num) _ h

theorem foldl_decAdd_exact : ∀ (l : List ℚ) (acc : ℚ),
    (∀ n : ℕ, repPrec 10 (acc + (l.take n).sum)) →
    l.foldl decAdd acc = acc + l.sum := by
  intro l
  induction l with
  | nil => intro acc _; simp
  | cons c cs ih =>
    intro acc h
    have h1 : decAdd acc c = acc + c := decAdd_exact acc c (by simpa using h 1)
    rw [List.foldl_cons, h1, ih (acc + c) ?_]
    · rw [List.sum_cons]; ring
    · intro n
      have h2 := h (n + 1)
      rw [List.take_succ_cons, List.sum_cons, ← add_assoc] at h2
      exact h2

theorem decSum_exact (l : List ℚ) (h : ∀ n : ℕ, repPrec 10 ((l.take n).sum)) :
    decSum l = l.sum := by
  have h0 := foldl_decAdd_exact l 0 (by intro n; simpa using h n)
  simpa [decSum] using h0

theorem q4_eq_self (x : ℚ) (h : ∃ k : ℤ, x = (k : ℚ) / 10000) : q4 x = x := by
  obtain ⟨k, rfl⟩ := h
  rw [q4]
  have h1 : (k : ℚ) / 10000 * 10000 = ((k : ℤ) : ℚ) := by
    field_simp
  rw [h1, roundHalfEven_intCast]

/-! ### Claim C8 -/

/-- Claim C8: `calculate_indicators` succeeds on every nonempty kline
sequence and returns `bias = 0` whenever the moving average is 0 — the
division is syntactically guarded by the `ma != 0` test, so no division
fault can occur. -/
theorem C8_bias_zero_when_ma_zero (maPeriod : Nat) (closes : List ℚ)
    (hne : closes ≠ []) :
    ∃ ind, calculate_indicators maPeriod closes = some ind ∧
      (ind.ma = 0 → ind.bias = 0) := by
  rw [calculate_indicators, List.getLast?_eq_getLast closes hne]
  refine ⟨_, rfl, fun hma => ?_⟩
  simp only at hma ⊢
  rw [if_pos hma]

/-- Witness for C8 at a concrete input whose moving average is zero. -/
theorem C8_witness :
    ∃ ind, calculate_indicators 1 [0] = some ind ∧
      (ind.ma = 0 → ind.bias = 0) :=
  C8_bias_zero_when_ma_zero 1 [0] (by simp)

/-! ### Claim C10 -/

/-- Claim C10: with the placeholder API key `"YOUR_API_KEY"` the engine
starts with `trade_enabled = False` and issues no startup calls, and in
that mode `execute_trade_entry`, `cancel_all_plan_orders`,
`check_trade_closure` and the leverage/margin setup all return immediately
with no exchange call and no state change. -/
theorem C10_read_only_mode_inert (cfg : Config)
    (hkey : cfg.apiKey = "YOUR_API_KEY") :
    (init_strategy cfg).1.tradeEnabled = false ∧
    (init_strategy cfg).2 = [] ∧
    (∀ (st : EngineState) (side : Nat) (ind : Indicators)
        (orderResp : VenueResp String) (posResp : VenueResp (List Position))
        (tpFails slFails : Bool), st.tradeEnabled = false →
      execute_trade_entry cfg st side ind orderResp posResp tpFails slFails
        = (st, [])) ∧
    cancel_all_plan_orders cfg false = [] ∧
    (∀ (st : EngineState) (posResp : VenueResp (List Position))
        (histResp : VenueResp (List PnlRow)), st.tradeEnabled = false →
      check_trade_closure cfg st posResp histResp = (st, [])) ∧
    prepare_trading_environment cfg false = [] := by
  refine ⟨?_, ?_, ?_, rfl, ?_, rfl⟩
  · rw [init_strategy, if_pos hkey]
  · rw [init_strategy, if_pos hkey]
  · intro st side ind orderResp posResp tpFails slFails hst
    rw [execute_trade_entry, if_pos hst]
  · intro st posResp histResp hst
    obtain ⟨te, ap, lk, lg⟩ := st
    have hte : te = false := hst
    subst hte
    rfl

/-- Witness for C10: the shipped `config.py` values put the engine in
read-only mode, and the verified operations are inert there. -/
theorem C10_witness :
    (init_strategy cfgReadOnly).1.tradeEnabled = false ∧
    (init_strategy cfgReadOnly).2 = [] ∧
    execute_trade_entry cfgReadOnly stDisabled 4
      { current_price := 100, ma := 100, bias := 0 }
      (Except.error ()) (Except.error ()) false false = (stDisabled, []) ∧
    check_trade_closure cfgReadOnly stDisabled (Except.error ())
      (Except.error ()) = (stDisabled, []) := by
  obtain ⟨h1, h2, h3, _, h5, _⟩ := C10_read_only_mode_inert cfgReadOnly rfl
  exact ⟨h1, h2, h3 stDisabled 4 _ _ _ false false rfl, h5 stDisabled _ _ rfl⟩

/-! ### Claim C1 (corrected) -/

/-- Claim C1 counterexample: the engine holds a cached position, the venue
reports no position, and the history call raises an `APIException` — the
`except` branch only logs, so no `TradeRecord` at all is appended (the
claim demands exactly one). -/
theorem C1_counterexample :
    stOpen.activePosition = some posLong ∧
    get_position true (Except.ok (1000, [])) = none ∧
    (check_trade_closure cfgLive stOpen (Except.ok (1000, []))
        (Except.error ())).1.ledger = [] :=
  ⟨rfl, rfl, rfl⟩

/-- Claim C1 as amended: exactly one `TradeRecord` is appended whenever
the history call **returns** (degraded when the code is not 1000 or the
data is empty); when the history call raises, no record is written (the
position is still cleared and plan orders cancelled, see C9). -/
theorem C1_closure_appends_one_record (cfg : Config) (st : EngineState)
    (ap : Position) (posResp : VenueResp (List Position)) (code : Int)
    (data : List PnlRow) (hen : st.tradeEnabled = true)
    (hap : st.activePosition = some ap)
    (hpos : get_position true posResp = none) :
    ∃ r, (check_trade_closure cfg st posResp (Except.ok (code, data))).1.ledger
        = st.ledger ++ [r] ∧
      ((code ≠ 1000 ∨ data = []) → r = degradedRecord) := by
  obtain ⟨te, a, lk, lg⟩ := st
  have hte : te = true := hen
  subst hte
  have ha : a = some ap := hap
  subst ha
  rw [check_trade_closure]
  simp only
  rw [hpos]
  simp only
  match data with
  | [] => exact ⟨degradedRecord, rfl, fun _ => rfl⟩
  | row :: rest =>
    by_cases hc : code = 1000
    · refine ⟨fullRecord cfg.symbol ap row, ?_, ?_⟩
      · simp [closureRecords, hc]
      · rintro (h | h)
        · exact absurd hc h
        · exact absurd h (by simp)
    · refine ⟨degradedRecord, ?_, fun _ => rfl⟩
      simp [closureRecords, hc]

/-- Witness for C1 (amended) at a concrete degraded-path input. -/
theorem C1_witness :
    ∃ r, (check_trade_closure cfgLive stOpen (Except.ok (1000, []))
        (Except.ok (999, []))).1.ledger = stOpen.ledger ++ [r] ∧
      (((999 : Int) ≠ 1000 ∨ ([] : List PnlRow) = []) → r = degradedRecord) :=
  C1_closure_appends_one_record cfgLive stOpen posLong
    (Except.ok (1000, [])) 999 [] rfl rfl rfl

/-! ### Claim C9 -/

/-- Claim C9: whenever the closure check runs with a cached position and
the venue reports none, the `finally` block clears `active_position` and
issues the cancel-all-plan-orders call on every path — full write,
degraded write, and history exception alike. -/
theorem C9_closure_always_resets (cfg : Config) (st : EngineState)
    (ap : Position) (posResp : VenueResp (List Position))
    (histResp : VenueResp (List PnlRow)) (hen : st.tradeEnabled = true)
    (hap : st.activePosition = some ap)
    (hpos : get_position true posResp = none) :
    (check_trade_closure cfg st posResp histResp).1.activePosition = none ∧
    (check_trade_closure cfg st posResp histResp).2
      = [ExchangeCall.cancelPlanOrders cfg.symbol] := by
  obtain ⟨te, a, lk, lg⟩ := st
  have hte : te = true := hen
  subst hte
  have ha : a = some ap := hap
  subst ha
  rw [check_trade_closure]
  simp only
  rw [hpos]
  exact ⟨rfl, rfl⟩

/-- Witness for C9 on the history-exception path. -/
theorem C9_witness :
    (check_trade_closure cfgLive stOpen (Except.ok (1000, []))
        (Except.error ())).1.activePosition = none ∧
    (check_trade_closure cfgLive stOpen (Except.ok (1000, []))
        (Except.error ())).2 = [ExchangeCall.cancelPlanOrders cfgLive.symbol] :=
  C9_closure_always_resets cfgLive stOpen posLong (Except.ok (1000, []))
    (Except.error ()) rfl rfl rfl

/-! ### Claim C2 (corrected) -/

/-- Claim C2 counterexample: `taskkill` fails (`CalledProcessError`), the
handler prints the failure — but `del running_procs[...]` and the
`save_running_procs` call are inside the `try` body after the raising
line, so the registry entry is NOT removed. -/
theorem C2_counterexample :
    (stop_strategy [("alpha", procAlpha)] 1 false).1 = [("alpha", procAlpha)] ∧
    (stop_strategy [("alpha", procAlpha)] 1 false).2
      = StopResult.killFailed "alpha" 1234 :=
  ⟨rfl, rfl⟩

/-- Claim C2 as amended: when termination fails the failure is reported
and the registry is left unchanged (nothing removed, nothing persisted);
only a successful kill removes the entry and persists the registry. -/
theorem C2_stop_strategy_kill_failure (procs : List (String × ProcInfo))
    (userChoice : ℤ) (name : String) (info : ProcInfo)
    (hname : pyGet (procs.map Prod.fst) (userChoice - 1) = some name)
    (hinfo : procs.lookup name = some info) :
    stop_strategy procs userChoice false
      = (procs, StopResult.killFailed name info.pid) ∧
    stop_strategy procs userChoice true
      = (procs.filter (fun p => p.1 ≠ name), StopResult.stopped name) := by
  have hne : procs.isEmpty = false := by
    cases procs with
    | nil => simp [pyGet] at hname
    | cons p ps => rfl
  rw [stop_strategy, stop_strategy, hne]
  simp only [Bool.false_eq_true, if_false, hname, hinfo]
  constructor <;> trivial

/-- Witness for C2 (amended) at a concrete one-entry registry. -/
theorem C2_witness :
    stop_strategy [("alpha", procAlpha)] 1 false
      = ([("alpha", procAlpha)], StopResult.killFailed "alpha" procAlpha.pid) ∧
    stop_strategy [("alpha", procAlpha)] 1 true
      = ([("alpha", procAlpha)].filter (fun p => p.1 ≠ "alpha"),
         StopResult.stopped "alpha") :=
  C2_stop_strategy_kill_failure [("alpha", procAlpha)] 1 "alpha" procAlpha
    rfl rfl

/-! ### Claim C6 -/

/-- Claim C6: whenever a TP/SL plan-order submission raises after a
confirmed entry, the trace ends with a market order on the closing side
(2 for a long, 3 for a short) whose size is the static
`config.ORDER_SIZE`, whatever the actual filled position size is. -/
theorem C6_flatten_on_tpsl_failure (cfg : Config) (st : EngineState)
    (side : Nat) (ind : Indicators) (msg : String)
    (posResp : VenueResp (List Position)) (pos : Position)
    (tpFails slFails : Bool) (hen : st.tradeEnabled = true)
    (hpos : get_position true posResp = some pos)
    (hfail : tpFails = true ∨ slFails = true) :
    ∃ pre, (execute_trade_entry cfg st side ind (Except.ok (1000, msg)) posResp
        tpFails slFails).2
      = pre ++ [ExchangeCall.newOrder cfg.symbol
          (if pos.side = "long" then 2 else 3) "market" cfg.orderSize] := by
  rw [execute_trade_entry, hen]
  simp only [Bool.true_eq_false, if_false]
  rw [if_neg (by norm_num), hpos]
  simp only
  match tpFails, slFails, hfail with
  | true, _, _ =>
    exact ⟨[ExchangeCall.newOrder cfg.symbol side "market" cfg.orderSize,
            ExchangeCall.submitTpSl cfg.symbol "tp" (q4 ind.ma)], rfl⟩
  | false, true, _ =>
    refine ⟨[ExchangeCall.newOrder cfg.symbol side "market" cfg.orderSize,
            ExchangeCall.submitTpSl cfg.symbol "tp" (q4 ind.ma),
            ExchangeCall.submitTpSl cfg.symbol "sl"
              (q4 (if pos.side = "long" then
                     decMul pos.open_avg_price (decSub 1 cfg.stopLossPct)
                   else
                     decMul pos.open_avg_price (decAdd 1 cfg.stopLossPct)))], rfl⟩

/-- Witness for C6: concrete failing TP submission; the position size
reported by the venue is "7" yet the flatten order uses the configured
size 1. -/
theorem C6_witness :
    ∃ pre, (execute_trade_entry cfgLive stFlat 4
        { current_price := 100, ma := 100, bias := 0 } (Except.ok (1000, ""))
        (Except.ok (1000,
          [{ side := "long", position_size := "7", open_avg_price := 100 }]))
        true false).2
      = pre ++ [ExchangeCall.newOrder cfgLive.symbol
          (if ({ side := "long", position_size := "7",
                 open_avg_price := 100 } : Position).side = "long" then 2 else 3)
          "market" cfgLive.orderSize] :=
  C6_flatten_on_tpsl_failure cfgLive stFlat 4
    { current_price := 100, ma := 100, bias := 0 } ""
    (Except.ok (1000, [{ side := "long", position_size := "7",
                         open_avg_price := 100 }]))
    { side := "long", position_size := "7", open_avg_price := 100 }
    true false rfl rfl (Or.inl rfl)

/-! ### Claim C7 -/

/-- Claim C7: with no active position the loop enters long (side 4)
exactly when `bias ≤ BIAS_ENTRY_LONG`, short (side 1) exactly when
`bias ≥ BIAS_ENTRY_SHORT` and the long condition fails (the `elif` gives
the long branch precedence when both hold), and no entry is evaluated on
a pass whose post-closure-check state still has an active position. -/
theorem C7_entry_rule (longT shortT bias : ℚ) :
    (entry_signal longT shortT bias = some 4 ↔ bias ≤ longT) ∧
    (entry_signal longT shortT bias = some 1
      ↔ (¬ bias ≤ longT ∧ shortT ≤ bias)) ∧
    (∀ (cfg : Config) (st : EngineState) (ct : ℚ)
        (posResp : VenueResp (List Position))
        (histResp : VenueResp (List PnlRow))
        (klinesResp : Option (List Kline)) (p : Position),
      (check_trade_closure cfg st posResp histResp).1.activePosition = some p →
      (run_pass cfg st ct posResp histResp klinesResp).2.entrySide = none) ∧
    (∀ (cfg : Config) (st1 : EngineState) (k : Kline) (ks : List Kline)
        (ind : Indicators), st1.activePosition = none →
      calculate_indicators cfg.maPeriod ((k :: ks).map Kline.close_price)
        = some ind →
      (run_pass_body cfg st1 (some (k :: ks))).2.entrySide
        = entry_signal cfg.biasEntryLong cfg.biasEntryShort ind.bias) := by
  refine ⟨?_, ?_, ?_, ?_⟩
  · by_cases h1 : bias ≤ longT
    · simp [entry_signal, h1]
    · by_cases h2 : shortT ≤ bias <;> simp [entry_signal, h1, h2]
  · by_cases h1 : bias ≤ longT
    · simp [entry_signal, h1]
    · by_cases h2 : shortT ≤ bias <;> simp [entry_signal, h1, h2]
  · intro cfg st ct posResp histResp klinesResp p hp
    rw [run_pass]
    split
    · rfl
    · rw [run_pass_body.eq_def, hp]
  · intro cfg st1 k ks ind hflat hind
    rw [run_pass_body.eq_def, hflat]
    dsimp only
    rw [hind]

/-- Witness for C7 at the configured thresholds (-0.1% / +0.1%) and on a
pass that still holds a position. -/
theorem C7_witness :
    entry_signal (-(1/1000)) (1/1000) (-(1/100)) = some 4 ∧
    entry_signal (-(1/1000)) (1/1000) (1/100) = some 1 ∧
    (run_pass cfgLive stOpen 120 (Except.ok (1000, [posLong]))
        (Except.error ()) none).2.entrySide = none ∧
    (run_pass_body cfgLive stFlat
        (some [{ timestamp := 120, close_price := 100 }])).2.entrySide
      = entry_signal cfgLive.biasEntryLong cfgLive.biasEntryShort 19 := by
  refine ⟨?_, ?_, ?_, ?_⟩
  · exact (C7_entry_rule (-(1/1000)) (1/1000) (-(1/100))).1.mpr (by norm_num)
  · exact (C7_entry_rule (-(1/1000)) (1/1000) (1/100)).2.1.mpr
      ⟨by norm_num, by norm_num⟩
  · exact (C7_entry_rule 0 0 0).2.2.1 cfgLive stOpen 120
      (Except.ok (1000, [posLong])) (Except.error ()) none posLong rfl
  · exact (C7_entry_rule 0 0 0).2.2.2 cfgLive stFlat
      { timestamp := 120, close_price := 100 } []
      { current_price := 100, ma := 5, bias := 19 } rfl (by decide)

/-! ### Claim C3 (corrected) -/

/-- Claim C3 counterexample: a pass on which the last processed candle
already covers the current boundary (`last_kline_open_time = 120`,
`current_time = 120`, 1-minute candles) short-sleeps and `continue`s on
line 198 — before `check_trade_closure` on line 201 — so the closure check
does NOT run on every pass. -/
theorem C3_counterexample :
    (run_pass cfgLive
        { stOpen with last_kline_open_time := 120 } 120
        (Except.ok (1000, [])) (Except.error ()) none).2.checkedClosure
      = false := by
  rw [run_pass, if_pos]
  show (120 : ℚ) ≥ next_run_time 120 (cfgLive.klineStep : ℕ) - (cfgLive.klineStep : ℚ) * 60
  rw [next_run_time]
  show (120 : ℚ) ≥ (⌊(120 : ℚ) / ((1 : ℚ) * 60)⌋ + 1 : ℤ) * ((1 : ℚ) * 60) - (1 : ℚ) * 60
  norm_num

/-- Every branch of the post-guard pass body reports that the closure
check ran. -/
theorem run_pass_body_checks (cfg : Config) (st1 : EngineState)
    (kr : Option (List Kline)) :
    (run_pass_body cfg st1 kr).2.checkedClosure = true := by
  rw [run_pass_body.eq_def]
  cases st1.activePosition with
  | some p => rfl
  | none =>
    cases kr with
    | none => rfl
    | some l =>
      cases l with
      | nil => rfl
      | cons k ks =>
        cases calculate_indicators cfg.maPeriod ((k :: ks).map Kline.close_price) with
        | none => rfl
        | some ind => rfl

/-- Claim C3 as amended: the closure check runs on a pass if and only if
the last processed candle's open time is strictly before the start of the
current candle interval; on the remaining passes the loop short-sleeps
without checking closure. -/
theorem C3_closure_check_iff (cfg : Config) (st : EngineState) (ct : ℚ)
    (posResp : VenueResp (List Position)) (histResp : VenueResp (List PnlRow))
    (klinesResp : Option (List Kline)) :
    (run_pass cfg st ct posResp histResp klinesResp).2.checkedClosure = true
      ↔ (st.last_kline_open_time : ℚ)
          < (⌊ct / ((cfg.klineStep : ℚ) * 60)⌋ : ℤ) * ((cfg.klineStep : ℚ) * 60) := by
  have hbound : next_run_time ct cfg.klineStep - (cfg.klineStep : ℚ) * 60
      = (⌊ct / ((cfg.klineStep : ℚ) * 60)⌋ : ℤ) * ((cfg.klineStep : ℚ) * 60) := by
    rw [next_run_time]
    ring
  rw [run_pass]
  split
  · rename_i hguard
    rw [hbound] at hguard
    simp only [PassOutcome.mk.injEq]
    constructor
    · intro h
      exact absurd h (by simp)
    · intro h
      exact absurd hguard (not_le.mpr h)
  · rename_i hguard
    rw [hbound] at hguard
    push_neg at hguard
    constructor
    · intro _
      exact hguard
    · intro _
      exact run_pass_body_checks cfg _ klinesResp

/-! ### Claim C4 (corrected) -/

/-- Claim C4 counterexample: a 20-kline sequence (so the last
`ma_period = 20` closes are the whole list) on which the computed moving
average differs from the exact arithmetic mean — context rounding at
`prec = 10` is not exact arithmetic. -/
theorem C4_counterexample :
    cexCloses.length = 20 ∧
    (calculate_indicators 20 cexCloses).map Indicators.ma
      ≠ some (cexCloses.sum / 20) := by
  constructor
  · rfl
  · decide

/-- Claim C4 as amended: the moving average is the arithmetic mean of the
last `ma_period` closes computed in 10-significant-digit decimal context
arithmetic (each partial sum and the quotient correctly rounded
half-even); it equals the exact arithmetic mean whenever every partial
sum of the window and the exact mean are representable within 10
significant digits — but not in general. -/
theorem C4_ma_exact_when_representable (maPeriod : Nat) (closes : List ℚ)
    (hpos : 0 < maPeriod) (hlen : maPeriod ≤ closes.length)
    (hsums : ∀ n : ℕ, repPrec 10 (((lastSlice maPeriod closes).take n).sum))
    (hmean : repPrec 10 ((lastSlice maPeriod closes).sum / (maPeriod : ℚ))) :
    ∃ ind, calculate_indicators maPeriod closes = some ind ∧
      (lastSlice maPeriod closes).length = maPeriod ∧
      ind.ma = (lastSlice maPeriod closes).sum
          / ((lastSlice maPeriod closes).length : ℚ) := by
  have hne : closes ≠ [] := by
    intro h
    rw [h] at hlen
    simp at hlen
    omega
  have hslicelen : (lastSlice maPeriod closes).length = maPeriod := by
    rw [lastSlice, if_neg (by omega)]
    rw [List.length_drop]
    omega
  rw [calculate_indicators, List.getLast?_eq_getLast closes hne]
  refine ⟨_, rfl, hslicelen, ?_⟩
  simp only [movingAvg]
  rw [decSum_exact _ hsums, hslicelen]
  rw [decDiv, roundPrec_eq_self 10 (by norm_num) _ hmean]

/-- Witness for C4 (amended): `ma_period = 2` over closes `[1, 2, 3]`;
every partial sum and the mean `5/2` fit in 10 significant digits, and
the computed moving average is exactly the mean of the last two closes. -/
theorem C4_witness :
    ∃ ind, calculate_indicators 2 [1, 2, 3] = some ind ∧
      (lastSlice 2 [1, 2, 3]).length = 2 ∧
      ind.ma = (lastSlice 2 [1, 2, 3]).sum
          / ((lastSlice 2 [1, 2, 3]).length : ℚ) := by
  apply C4_ma_exact_when_representable 2 [1, 2, 3] (by norm_num) (by norm_num)
  · intro n
    match n with
    | 0 => exact ⟨0, 0, by decide, by norm_num⟩
    | 1 => exact ⟨2, 0, by decide, by norm_num⟩
    | (n + 2) =>
      refine ⟨5, 0, ?_, by norm_num⟩
      have htake : (lastSlice 2 [1, 2, 3]).take (n + 2) = lastSlice 2 [1, 2, 3] := by
        apply List.take_of_length_le
        have hlen2 : (lastSlice 2 [1, 2, 3]).length = 2 := by decide
        omega
      rw [htake]
      decide
  · exact ⟨25, -1, by decide, by norm_num⟩

/-! ### Claim C5 (corrected) -/

/-- Claim C5 counterexample: the engine formats prices with `:.4f` before
submission (strategy.py line 177), so with `ma = 0.12346` the submitted
take-profit trigger is `0.1235`, not the moving average. -/
theorem C5_counterexample :
    (execute_trade_entry cfgLive stFlat 4 indCex (Except.ok (1000, ""))
        (Except.ok (1000, [posLong])) false false).2.get? 1
      = some (ExchangeCall.submitTpSl cfgLive.symbol "tp" ((1235 : ℚ)/10000)) ∧
    ((1235 : ℚ)/10000) ≠ indCex.ma := by
  constructor
  · decide
  · decide

/-- Claim C5 as amended: the submitted TP price is the entry-time moving
average rounded half-even to 4 decimal places, and the submitted SL price
is `open_avg_price × (1 ∓ stop_loss_pct)` evaluated in 10-digit context
arithmetic and rounded half-even to 4 decimal places; whenever those
values are context-representable and multiples of 10⁻⁴ the submitted
prices equal the exact ones, as here. -/
theorem C5_tp_sl_prices (cfg : Config) (st : EngineState) (side : Nat)
    (ind : Indicators) (msg : String) (posResp : VenueResp (List Position))
    (pos : Position) (slFails : Bool) (hen : st.tradeEnabled = true)
    (hpos : get_position true posResp = some pos)
    (hma4 : ∃ k : ℤ, ind.ma = (k : ℚ) / 10000)
    (hfac : repPrec 10 (if pos.side = "long" then 1 - cfg.stopLossPct
                        else 1 + cfg.stopLossPct))
    (hprod : repPrec 10 (pos.open_avg_price *
        (if pos.side = "long" then 1 - cfg.stopLossPct else 1 + cfg.stopLossPct)))
    (hsl4 : ∃ k : ℤ, pos.open_avg_price *
        (if pos.side = "long" then 1 - cfg.stopLossPct else 1 + cfg.stopLossPct)
          = (k : ℚ) / 10000) :
    ∃ rest, (execute_trade_entry cfg st side ind (Except.ok (1000, msg)) posResp
        false slFails).2
      = ExchangeCall.newOrder cfg.symbol side "market" cfg.orderSize
        :: ExchangeCall.submitTpSl cfg.symbol "tp" ind.ma
        :: ExchangeCall.submitTpSl cfg.symbol "sl"
             (pos.open_avg_price *
               (if pos.side = "long" then 1 - cfg.stopLossPct
                else 1 + cfg.stopLossPct))
        :: rest := by
  have hsl : (if pos.side = "long" then
                decMul pos.open_avg_price (decSub 1 cfg.stopLossPct)
              else decMul pos.open_avg_price (decAdd 1 cfg.stopLossPct))
      = pos.open_avg_price *
          (if pos.side = "long" then 1 - cfg.stopLossPct
           else 1 + cfg.stopLossPct) := by
    by_cases hside : pos.side = "long"
    · rw [if_pos hside, if_pos hside] at *
      rw [decSub_exact 1 cfg.stopLossPct (by simpa [hside] using hfac)]
      exact decMul_exact _ _ (by simpa [hside] using hprod)
    · rw [if_neg hside, if_neg hside] at *
      rw [decAdd_exact 1 cfg.stopLossPct (by simpa [hside] using hfac)]
      exact decMul_exact _ _ (by simpa [hside] using hprod)
  rw [execute_trade_entry, hen]
  simp only [Bool.true_eq_false, if_false]
  rw [if_neg (by norm_num), hpos]
  simp only
  rw [hsl, q4_eq_self ind.ma hma4, q4_eq_self _ hsl4]
  match slFails with
  | true =>
    exact ⟨[ExchangeCall.newOrder cfg.symbol
      (if pos.side = "long" then 2 else 3) "market" cfg.orderSize], rfl⟩
  | false => exact ⟨[], rfl⟩

/-- Witness for C5 (amended): long entry at `open = 100`,
`stop_loss_pct = 0.02`, `ma = 101`: submitted TP is exactly 101 and
submitted SL exactly 98. -/
theorem C5_witness :
    ∃ rest, (execute_trade_entry cfgLive stFlat 4
        { current_price := 101, ma := 101, bias := 0 } (Except.ok (1000, ""))
        (Except.ok (1000, [posLong])) false false).2
      = ExchangeCall.newOrder cfgLive.symbol 4 "market" cfgLive.orderSize
        :: ExchangeCall.submitTpSl cfgLive.symbol "tp"
             ({ current_price := 101, ma := 101, bias := 0 } : Indicators).ma
        :: ExchangeCall.submitTpSl cfgLive.symbol "sl"
             (posLong.open_avg_price *
               (if posLong.side = "long" then 1 - cfgLive.stopLossPct
                else 1 + cfgLive.stopLossPct))
        :: rest :=
  C5_tp_sl_prices cfgLive stFlat 4
    { current_price := 101, ma := 101, bias := 0 } ""
    (Except.ok (1000, [posLong])) posLong false rfl rfl
    ⟨1010000, by norm_num⟩
    ⟨98, -2, by decide, by decide⟩
    ⟨98, 0, by decide, by decide⟩
    ⟨980000, by decide⟩
